import Mathlib

/-!
# Verification of the EAV-Django attribute storage layer

Shallow embedding of the core EAV (entity–attribute–value) layer of the
`eav-django` repository: the `Schema` / `Attr` data model, the polymorphic
value property, `BaseSchema.save` / `BaseSchema.save_attr`, the dynamic
attribute access of `BaseEntity`, `BaseEntity.save`, and the lookup
translation performed by `EntityManager` (`eav/models.py`), together with
the datatype tag tables of `eav/models.py` and `eav/forms.py`.

Databases are modelled as Lean lists of rows; Django's `objects.get` /
`objects.create` / row update calls become explicit list operations.
Python's dynamically typed attribute values become the inductive type
`Value`; content types of the generic foreign keys become plain naturals.
-/

set_option maxHeartbeats 1000000

namespace EavDjango

/-- The datatype tags admitted by `BaseSchema.datatype`
(`BaseSchema.DATATYPE_CHOICES` in `eav/models.py`): text, int, date, bool. -/
inductive Datatype
  | text
  | int
  | date
  | bool
deriving DecidableEq, Repr

/-- The string form of a datatype tag, as stored in the `datatype` column. -/
def Datatype.str : Datatype → String
  | .text => "text"
  | .int => "int"
  | .date => "date"
  | .bool => "bool"

/-- `BaseSchema.DATATYPE_CHOICES` from `eav/models.py`: pairs of stored tag
and human-readable label. -/
def DATATYPE_CHOICES : List (String × String) :=
  [("text", "text"), ("int", "number"), ("date", "date"), ("bool", "boolean")]

/-- `BaseDynamicEntityForm.FIELD_CLASSES` from `eav/forms.py`: datatype tag
to form field class name. -/
def FIELD_CLASSES : List (String × String) :=
  [("text", "CharField"), ("float", "FloatField"), ("date", "DateField"),
   ("bool", "BooleanField"), ("many", "ModelMultipleChoiceField")]

/-- A scalar Python value, as far as the EAV layer inspects one:
`None`, strings, ints, bools and dates (opaque ordinals). -/
inductive Scalar
  | none
  | str (s : String)
  | int (n : Int)
  | bool (b : Bool)
  | date (d : Nat)
deriving DecidableEq, Repr

/-- A dynamically typed Python value: a scalar or a list.  The EAV layer
consumes list elements only through `'%s'` interpolation and membership
tests, so elements are modelled as scalars. -/
inductive Value
  | scalar (v : Scalar)
  | list (xs : List Scalar)
deriving DecidableEq, Repr

/-- Shorthand for the Python `None` value. -/
def Value.none : Value := .scalar .none

/-- Shorthand for a Python string value. -/
def Value.str (s : String) : Value := .scalar (.str s)

/-- Shorthand for a Python int value. -/
def Value.int (n : Int) : Value := .scalar (.int n)

/-- Shorthand for a Python bool value. -/
def Value.bool (b : Bool) : Value := .scalar (.bool b)

/-- Shorthand for a Python date value. -/
def Value.date (d : Nat) : Value := .scalar (.date d)

/-- Python truthiness (`if value:` / `if sublookup:`) restricted to `Value`. -/
def Value.truthy : Value → Bool
  | .scalar .none => false
  | .scalar (.str s) => s != ""
  | .scalar (.int n) => n != 0
  | .scalar (.bool b) => b
  | .scalar (.date _) => true
  | .list xs => !xs.isEmpty

/-- Python `'%s' % value` string interpolation on scalars, used when
composing managed many-to-one schema names from a value. -/
def Scalar.pyStr : Scalar → String
  | .none => "None"
  | .str s => s
  | .int n => toString n
  | .bool b => if b then "True" else "False"
  | .date d => toString d

/-- Python `'%s' % value` string interpolation on values. -/
def Value.pyStr : Value → String
  | .scalar v => v.pyStr
  | .list _ => "[list]"

/-- `get_m2o_schema_name` from `eav/models.py`:
`'%s_%s_%s' % (MANAGED_MANY_TO_ONE_PREFIX, name, value)` with the constant
`'m2o'` as the managed many-to-one marker. -/
def get_m2o_schema_name (name value : String) : String :=
  "m2o" ++ "_" ++ name ++ "_" ++ value

/-- A `BaseSchema` row (`eav/models.py`).  `choices` models the result of
`get_choices()` which concrete applications provide: a list of
(choice name, choice title) pairs. -/
structure Schema where
  pk : Nat
  name : String
  title : String
  datatype : Datatype
  required : Bool := false
  managed : Bool := false
  m2o : Bool := false
  choices : List (String × String) := []
deriving DecidableEq, Repr

/-- An `Attr` row (`eav/models.py`): generic references to one entity and one
schema plus one column per scalar datatype.  Columns hold dynamically typed
values, as Python instance attributes do before the row is written out. -/
structure Attr where
  entity_content_type : Nat
  entity_object_id : Nat
  schema_content_type : Nat
  schema_object_id : Nat
  value_text : Value := .none
  value_int : Value := .none
  value_date : Value := .none
  value_bool : Value := .none
deriving DecidableEq, Repr

/-- Projection of the scalar column belonging to a datatype. -/
def Attr.col (a : Attr) : Datatype → Value
  | .text => a.value_text
  | .int => a.value_int
  | .date => a.value_date
  | .bool => a.value_bool

/-- Python `getattr(attr, colName)` restricted to the four value columns,
as performed by `Attr._get_value` via `'value_%s' % datatype`. -/
def Attr.getattrValueCol (a : Attr) (colName : String) : Value :=
  if colName = "value_text" then a.value_text
  else if colName = "value_int" then a.value_int
  else if colName = "value_date" then a.value_date
  else if colName = "value_bool" then a.value_bool
  else Value.none

/-- Python `setattr(attr, colName, v)` restricted to the four value columns,
as performed by `Attr._set_value`. -/
def Attr.setattrValueCol (a : Attr) (colName : String) (v : Value) : Attr :=
  if colName = "value_text" then { a with value_text := v }
  else if colName = "value_int" then { a with value_int := v }
  else if colName = "value_date" then { a with value_date := v }
  else if colName = "value_bool" then { a with value_bool := v }
  else a

/-- `Attr._get_value`: `getattr(self, 'value_%s' % self.schema.datatype)`.
The linked schema's datatype selects the column by name. -/
def attr_get_value (a : Attr) (s : Schema) : Value :=
  a.getattrValueCol ("value_" ++ s.datatype.str)

/-- `Attr._set_value`: `setattr(self, 'value_%s' % self.schema.datatype, v)`. -/
def attr_set_value (a : Attr) (s : Schema) (v : Value) : Attr :=
  a.setattrValueCol ("value_" ++ s.datatype.str) v

/-! ## Database plumbing: rows, keys, get and update -/

/-- The four generic-relation columns, i.e. the columns of
`Attr.Meta.unique_together`. -/
def Attr.key (a : Attr) : Nat × Nat × Nat × Nat :=
  (a.entity_content_type, a.entity_object_id,
   a.schema_content_type, a.schema_object_id)

/-- A fresh `Attr(**lookups)` instance for a key: all value columns are
still `None`. -/
def mkAttr (k : Nat × Nat × Nat × Nat) : Attr :=
  { entity_content_type := k.1, entity_object_id := k.2.1,
    schema_content_type := k.2.2.1, schema_object_id := k.2.2.2 }

/-- `Attr.objects.get(**lookups)` on the four generic-relation columns
(`None` models `Attr.DoesNotExist`). -/
def getAttr (db : List Attr) (k : Nat × Nat × Nat × Nat) : Option Attr :=
  db.find? (fun a => decide (a.key = k))

/-- Saving a fetched row back: every row with the given key is replaced by
its image under `f` (under the uniqueness invariant exactly one row matches). -/
def updateAttr (db : List Attr) (k : Nat × Nat × Nat × Nat) (f : Attr → Attr) :
    List Attr :=
  db.map (fun a => if a.key = k then f a else a)

/-- `type(self).objects.get(name=...)` over a schema table; schema names are
unique (`AutoSlugField(unique=True)`). -/
def findSchemaByName (schemata : List Schema) (n : String) : Option Schema :=
  schemata.find? (fun s => s.name == n)

/-- The uniqueness invariant declared by `Attr.Meta.unique_together`:
no two rows share the (entity content type, entity id, schema content type,
schema id) key. -/
def uniqueAttrs (db : List Attr) : Prop :=
  (db.map Attr.key).Nodup

instance (db : List Attr) : Decidable (uniqueAttrs db) :=
  inferInstanceAs (Decidable (db.map Attr.key).Nodup)

/-! ## Fixtures used by witnesses and counterexamples -/

/-- Fixture: an ordinary text schema named `colour`. -/
def colourSchema : Schema :=
  { pk := 11, name := "colour", title := "Colour", datatype := .text }

/-- Fixture: an int schema named `price`. -/
def priceSchema : Schema :=
  { pk := 12, name := "price", title := "Price", datatype := .int }

/-- Fixture: a many-to-one management schema named `size` with choices
small and large. -/
def sizeSchema : Schema :=
  { pk := 13, name := "size", title := "Size", datatype := .text,
    m2o := true, choices := [("small", "Small"), ("large", "Large")] }

/-- Fixture: the managed boolean schema for the `small` choice of `size`. -/
def m2oSizeSmallSchema : Schema :=
  { pk := 14, name := "m2o_size_small", title := "Small", datatype := .bool,
    managed := true }

/-- Fixture: the managed boolean schema for the `large` choice of `size`. -/
def m2oSizeLargeSchema : Schema :=
  { pk := 15, name := "m2o_size_large", title := "Large", datatype := .bool,
    managed := true }

/-- Fixture: the schema table holding all of the above. -/
def exSchemata : List Schema :=
  [colourSchema, priceSchema, sizeSchema, m2oSizeSmallSchema, m2oSizeLargeSchema]

/-- Fixture: a stored attribute row (entity 5 of content type 1, schema
`colour` of content type 2) holding the text `green`. -/
def greenAttr : Attr :=
  { entity_content_type := 1, entity_object_id := 5,
    schema_content_type := 2, schema_object_id := 11,
    value_text := .str "green" }

/-! ## C5: the polymorphic `value` property -/

/-- C5: reading `Attr.value` returns the scalar column named
`value_<datatype>` for the linked schema's datatype, and writing `Attr.value`
writes that column only, leaving the other three scalar columns unchanged. -/
theorem attr_value_selects_datatype_column (a : Attr) (s : Schema) (v : Value) :
    attr_get_value a s = a.col s.datatype ∧
    (attr_set_value a s v).col s.datatype = v ∧
    (∀ d, d ≠ s.datatype → (attr_set_value a s v).col d = a.col d) := by
  rcases s with ⟨pk, nm, ti, dt, rq, mg, mo, ch⟩
  cases dt <;>
    refine ⟨rfl, rfl, ?_⟩ <;>
      intro d hd <;> cases d <;> first | rfl | exact absurd rfl hd

/-- C5 witness: concrete read/write of the `colour` (text) schema's value,
with the int column untouched. -/
theorem attr_value_selects_datatype_column_witness :
    attr_get_value greenAttr colourSchema = greenAttr.col .text ∧
    (attr_set_value greenAttr colourSchema (.str "red")).col .text = .str "red" ∧
    (attr_set_value greenAttr colourSchema (.str "red")).col .int =
      greenAttr.col .int := by
  have h := attr_value_selects_datatype_column greenAttr colourSchema (.str "red")
  exact ⟨h.1, h.2.1, h.2.2 .int (by decide)⟩

/-! ## C7: the datatype tag set -/

/-- The datatype tag set the spec claims a Schema may carry (from the spec's
words, for comparison with the code's tables). -/
def specClaimedDatatypeTags : List String :=
  ["text", "int", "float", "date", "bool", "many"]

/-- C7 counterexample: the tags declared by `BaseSchema.DATATYPE_CHOICES`
are not the six tags the spec lists — `many` (like `float`) is not among
them. -/
theorem datatype_tags_counterexample :
    ¬ (∀ t, t ∈ DATATYPE_CHOICES.map Prod.fst ↔ t ∈ specClaimedDatatypeTags) := by
  intro h
  exact absurd ((h "many").mpr (by decide)) (by decide)

/-- C7 amended: the model layer (`BaseSchema.DATATYPE_CHOICES`) admits
exactly text, int, date and bool — matching the `Datatype` embedding — while
the form layer (`FIELD_CLASSES`) maps exactly text, float, date, bool and
many; the union of the two is the six-tag set the spec lists. -/
theorem datatype_tags_amended :
    DATATYPE_CHOICES.map Prod.fst = ["text", "int", "date", "bool"] ∧
    FIELD_CLASSES.map Prod.fst = ["text", "float", "date", "bool", "many"] ∧
    (∀ d : Datatype, d.str ∈ DATATYPE_CHOICES.map Prod.fst) ∧
    (∀ t, (t ∈ DATATYPE_CHOICES.map Prod.fst ∨ t ∈ FIELD_CLASSES.map Prod.fst)
        ↔ t ∈ specClaimedDatatypeTags) := by
  refine ⟨rfl, rfl, fun d => by cases d <;> decide, fun t => ?_⟩
  simp only [DATATYPE_CHOICES, FIELD_CLASSES, specClaimedDatatypeTags,
    List.map_cons, List.map_nil, List.mem_cons, List.not_mem_nil]
  tauto

/-! ## C1: `EntityManager._filter_by_lookup` (`eav/models.py`) -/

/-- Outcome of translating one keyword lookup: a dictionary of underlying
queryset lookups, a `NameError`, a `ValueError` (missing managed schema), or
the unpack `ValueError` from `name, sublookup = lookup.split('__')` yielding
more than two parts. -/
inductive FilterOutcome
  | query (lookups : List (String × Value))
  | nameError
  | valueError
  | unpackError
deriving DecidableEq, Repr

/-- Python `str.split('__')` on a character list: cut at every
non-overlapping occurrence of a double underscore, left to right.
(Structural recursion so that concrete instances evaluate in the kernel.) -/
def splitDunderAux (acc : List Char) : List Char → List String
  | '_' :: '_' :: rest => String.mk acc :: splitDunderAux [] rest
  | c :: rest => splitDunderAux (acc ++ [c]) rest
  | [] => [String.mk acc]

/-- Python `lookup.split('__')`. -/
def pySplitDunder (s : String) : List String :=
  splitDunderAux [] s.data

/-- The split at the top of `_filter_by_lookup`:
`name, sublookup = lookup.split('__') if '__' in lookup else (lookup, None)`.
Three or more parts fail to unpack (`None` here). -/
def splitLookup (lookup : String) : Option (String × Option String) :=
  match pySplitDunder lookup with
  | [n] => some (n, Option.none)
  | [n, sub] => some (n, some sub)
  | _ => Option.none

/-- Python truthiness of the optional sublookup (`if sublookup:`):
`None` and the empty string are falsy. -/
def subTruthy : Option String → Bool
  | Option.none => false
  | some s => s != ""

/-- The value column lookup built by `_filter_by_schema_straight`:
`'attrs__value_%s' % schema.datatype`, with `'__%s' % sublookup` appended
when the sublookup is truthy. -/
def straightValueLookup (d : Datatype) : Option String → String
  | some sub =>
      if sub != "" then "attrs__value_" ++ d.str ++ "__" ++ sub
      else "attrs__value_" ++ d.str
  | Option.none => "attrs__value_" ++ d.str

/-- `EntityManager._filter_by_schema_straight`: constrain the attribute's
schema (content type and primary key) and its datatype's value column. -/
def filter_by_schema_straight (schemaCT : Nat) (sublookup : Option String)
    (value : Value) (schema : Schema) : FilterOutcome :=
  .query [("attrs__schema_content_type", .int schemaCT),
          ("attrs__schema_object_id", .int schema.pk),
          (straightValueLookup schema.datatype sublookup, value)]

/-- `EntityManager._filter_by_schema_m2o`: resolve the managed schema named
`m2o_<schema.name>_<value>` and constrain its boolean value column to True;
`ValueError` when the managed schema does not exist. -/
def filter_by_schema_m2o (schemata : List Schema) (schemaCT : Nat)
    (value : Value) (schema : Schema) : FilterOutcome :=
  match findSchemaByName schemata (get_m2o_schema_name schema.name value.pyStr) with
  | some ms =>
      .query [("attrs__schema_content_type", .int schemaCT),
              ("attrs__schema_object_id", .int ms.pk),
              ("attrs__value_bool", .bool true)]
  | Option.none => .valueError

/-- `EntityManager._filter_by_lookup` (`eav/models.py`): split the lookup,
pass model fields through unchanged, translate schema lookups, and raise
`NameError` for unknown names or for sublookups on m2o attributes. -/
def filter_by_lookup (fields : List String) (schemata : List Schema)
    (schemaCT : Nat) (lookup : String) (value : Value) : FilterOutcome :=
  match splitLookup lookup with
  | Option.none => .unpackError
  | some (name, sublookup) =>
    if fields.contains name then
      .query [(lookup, value)]
    else
      match findSchemaByName schemata name with
      | some schema =>
          if schema.m2o then
            if subTruthy sublookup then .nameError
            else filter_by_schema_m2o schemata schemaCT value schema
          else
            filter_by_schema_straight schemaCT sublookup value schema
      | Option.none => .nameError

/-- The translation C1 predicts for a lookup naming an available schema
(from the spec's words): constrain the attribute's own schema and the value
column matching that schema's datatype, the sublookup appended when
present. -/
def c1SpecSchemaTranslation (schemaCT : Nat) (schema : Schema)
    (sublookup : Option String) (value : Value) : FilterOutcome :=
  .query [("attrs__schema_content_type", .int schemaCT),
          ("attrs__schema_object_id", .int schema.pk),
          ((match sublookup with
            | some sub => "attrs__value_" ++ schema.datatype.str ++ "__" ++ sub
            | Option.none => "attrs__value_" ++ schema.datatype.str), value)]

/-- C1 counterexample: `size` names an available schema, but
`filter(size='small')` is not translated to the schema's own value column —
it constrains the managed schema `m2o_size_small` (pk 14) and
`attrs__value_bool`. -/
theorem filter_by_lookup_counterexample :
    findSchemaByName exSchemata "size" = some sizeSchema ∧
    filter_by_lookup ["title"] exSchemata 2 "size" (.str "small")
      ≠ c1SpecSchemaTranslation 2 sizeSchema Option.none (.str "small") ∧
    filter_by_lookup ["title"] exSchemata 2 "size" (.str "small")
      = .query [("attrs__schema_content_type", .int 2),
                ("attrs__schema_object_id", .int 14),
                ("attrs__value_bool", .bool true)] := by
  decide

/-- C1 amended: once the lookup splits into a name and an optional
sublookup, a model field passes through unchanged; an available non-m2o
schema translates to the schema's content type, its pk, and
`attrs__value_<datatype>` with a truthy sublookup appended; an m2o schema
with a truthy sublookup raises `NameError`; an m2o schema otherwise
translates through the managed schema `m2o_<name>_<value>` to
`attrs__value_bool=True`; an unknown name raises `NameError`. -/
theorem filter_by_lookup_amended (fields : List String) (schemata : List Schema)
    (schemaCT : Nat) (lookup : String) (value : Value) (name : String)
    (sublookup : Option String)
    (hsplit : splitLookup lookup = some (name, sublookup)) :
    (name ∈ fields →
      filter_by_lookup fields schemata schemaCT lookup value =
        .query [(lookup, value)]) ∧
    (name ∉ fields → findSchemaByName schemata name = Option.none →
      filter_by_lookup fields schemata schemaCT lookup value = .nameError) ∧
    (∀ schema, name ∉ fields →
      findSchemaByName schemata name = some schema → schema.m2o = false →
      filter_by_lookup fields schemata schemaCT lookup value =
        .query [("attrs__schema_content_type", .int schemaCT),
                ("attrs__schema_object_id", .int schema.pk),
                (straightValueLookup schema.datatype sublookup, value)]) ∧
    (∀ schema, name ∉ fields →
      findSchemaByName schemata name = some schema → schema.m2o = true →
      subTruthy sublookup = true →
      filter_by_lookup fields schemata schemaCT lookup value = .nameError) ∧
    (∀ schema ms, name ∉ fields →
      findSchemaByName schemata name = some schema → schema.m2o = true →
      subTruthy sublookup = false →
      findSchemaByName schemata (get_m2o_schema_name schema.name value.pyStr)
        = some ms →
      filter_by_lookup fields schemata schemaCT lookup value =
        .query [("attrs__schema_content_type", .int schemaCT),
                ("attrs__schema_object_id", .int ms.pk),
                ("attrs__value_bool", .bool true)]) := by
  refine ⟨fun h1 => ?_, fun h1 h2 => ?_, fun schema h1 h2 h3 => ?_,
          fun schema h1 h2 h3 h4 => ?_, fun schema ms h1 h2 h3 h4 h5 => ?_⟩ <;>
    simp [filter_by_lookup, hsplit, h1, filter_by_schema_straight,
          filter_by_schema_m2o, *]

/-- C1 amended witness: `colour__in` on the text schema `colour` translates
to its own pk and `attrs__value_text__in`. -/
theorem filter_by_lookup_amended_witness :
    filter_by_lookup ["title"] exSchemata 2 "colour__in" (.str "green") =
      .query [("attrs__schema_content_type", .int 2),
              ("attrs__schema_object_id", .int colourSchema.pk),
              (straightValueLookup colourSchema.datatype (some "in"),
               .str "green")] :=
  (filter_by_lookup_amended ["title"] exSchemata 2 "colour__in" (.str "green")
      "colour" (some "in") (by decide)).2.2.1 colourSchema (by decide)
      (by decide) rfl

/-! ## `BaseSchema.save_attr` (`eav/models.py`) -/

/-- Exceptions `save_attr` may raise: `ValueError` for invalid m2o values,
`DoesNotExist` when a managed schema is missing from the schema table. -/
inductive SaveErr
  | valueError
  | doesNotExist
deriving DecidableEq, Repr

/-- An entity instance: its content type, its primary key, and the dynamic
attribute values that were assigned on the instance (the schema-named
entries of its `__dict__`). -/
structure Entity where
  ct : Nat
  pk : Nat
  vars : List (String × Value) := []
deriving DecidableEq, Repr

/-- The `Attr` lookup key built by `save_attr`: the entity's content type
and pk plus the schema's content type and pk. -/
def attrKeyFor (schemaCT : Nat) (e : Entity) (schemaPk : Nat) :
    Nat × Nat × Nat × Nat :=
  (e.ct, e.pk, schemaCT, schemaPk)

/-- The non-m2o branch of `save_attr`: fetch the `Attr` for the entity and
schema; when absent, create it only for a truthy value; when present,
write the value (skipping the save when it is unchanged). -/
def save_attr_simple (db : List Attr) (schemaCT : Nat) (s : Schema)
    (e : Entity) (value : Value) : List Attr :=
  let k := attrKeyFor schemaCT e s.pk
  match getAttr db k with
  | Option.none =>
      if value.truthy then db ++ [attr_set_value (mkAttr k) s value] else db
  | some attr =>
      if value = attr_get_value attr s then db
      else updateAttr db k (fun a => attr_set_value a s value)

/-- One iteration of the m2o choice loop of `save_attr`: resolve the managed
schema for the choice, then create or update the entity's `Attr` for it,
setting its value to True exactly when the managed name is enabled. -/
def saveChoiceAttr (schemata : List Schema) (schemaCT : Nat) (e : Entity)
    (name : String) (enabled_choices : List String) (db : List Attr)
    (choice : String) : List Attr × Option SaveErr :=
  -- schema_name = get_m2o_schema_name(name, choice);
  -- attr.value = True if schema_name in enabled_choices else False
  match findSchemaByName schemata (get_m2o_schema_name name choice) with
  | Option.none => (db, some .doesNotExist)
  | some ms =>
      match getAttr db (attrKeyFor schemaCT e ms.pk) with
      | Option.none =>
          (db ++ [attr_set_value (mkAttr (attrKeyFor schemaCT e ms.pk)) ms
            (Value.bool (enabled_choices.contains (get_m2o_schema_name name choice)))],
           Option.none)
      | some _ =>
          (updateAttr db (attrKeyFor schemaCT e ms.pk)
            (fun a => attr_set_value a ms
              (Value.bool (enabled_choices.contains (get_m2o_schema_name name choice)))),
           Option.none)

/-- The m2o choice loop of `save_attr`: process the schema's choices in
order, aborting at the first exception. -/
def saveChoicesLoop (schemata : List Schema) (schemaCT : Nat) (e : Entity)
    (name : String) (enabled_choices : List String) :
    List Attr → List (String × String) → List Attr × Option SaveErr
  | db, [] => (db, Option.none)
  | db, (choice, _title) :: rest =>
      match saveChoiceAttr schemata schemaCT e name enabled_choices db choice with
      | (db1, Option.none) =>
          saveChoicesLoop schemata schemaCT e name enabled_choices db1 rest
      | (db1, some err) => (db1, some err)

/-- The schema name an `Attr` row refers to through its generic foreign key
(used by the `schema__name__in` filter of the m2o `None` branch). -/
def attrSchemaName (schemata : List Schema) (schemaCT : Nat) (a : Attr) :
    Option String :=
  if a.schema_content_type = schemaCT then
    (schemata.find? (fun s => s.pk == a.schema_object_id)).map Schema.name
  else Option.none

/-- `Attr.objects.filter(schema__name__in=valid_choices).update(value_bool=False)`
from the m2o `None` branch of `save_attr`. -/
def resetChoiceAttrs (schemata : List Schema) (schemaCT : Nat)
    (valid_choices : List String) (db : List Attr) : List Attr :=
  db.map (fun a =>
    match attrSchemaName schemata schemaCT a with
    | some n => if valid_choices.contains n then { a with value_bool := .bool false } else a
    | Option.none => a)

/-- `BaseSchema.save_attr` (`eav/models.py`): many-to-one schemata
synchronize their managed choice schemata's boolean attributes; other
schemata store the value in the entity's `Attr` for the schema. -/
def save_attr (schemata : List Schema) (schemaCT : Nat) (s : Schema)
    (e : Entity) (name : String) (value : Value) (db : List Attr) :
    List Attr × Option SaveErr :=
  if s.m2o then
    let valid_choices := s.choices.map (fun c => get_m2o_schema_name name c.1)
    match value with
    | .list items =>
        let enabled_choices := items.map (fun v => get_m2o_schema_name name v.pyStr)
        if enabled_choices.all (fun n => valid_choices.contains n) then
          saveChoicesLoop schemata schemaCT e name enabled_choices db s.choices
        else (db, some .valueError)
    | .scalar .none =>
        (resetChoiceAttrs schemata schemaCT valid_choices db, Option.none)
    | _ => (db, some .valueError)
  else
    (save_attr_simple db schemaCT s e value, Option.none)

/-! ## Helper lemmas about keys, get and update -/

/-- Writing the value property does not touch the generic-relation key. -/
theorem attr_set_value_key (a : Attr) (s : Schema) (v : Value) :
    (attr_set_value a s v).key = a.key := by
  rcases s with ⟨pk, nm, ti, dt, rq, mg, mo, ch⟩
  cases dt <;> rfl

/-- Reading back the value property just written yields the written value. -/
theorem attr_get_set_value (a : Attr) (s : Schema) (v : Value) :
    attr_get_value (attr_set_value a s v) s = v := by
  rcases s with ⟨pk, nm, ti, dt, rq, mg, mo, ch⟩
  cases dt <;> rfl

/-- A fresh `Attr(**lookups)` carries the lookup key. -/
theorem mkAttr_key (k : Nat × Nat × Nat × Nat) : (mkAttr k).key = k := rfl

/-- Unfolding a fetch over a cons cell. -/
theorem getAttr_cons (x : Attr) (l : List Attr) (k : Nat × Nat × Nat × Nat) :
    getAttr (x :: l) k = if x.key = k then some x else getAttr l k := by
  by_cases h : x.key = k
  · rw [if_pos h]; exact List.find?_cons_of_pos _ (by simpa using h)
  · rw [if_neg h]; exact List.find?_cons_of_neg _ (by simpa using h)

/-- Unfolding an update over a cons cell. -/
theorem updateAttr_cons (x : Attr) (l : List Attr) (k : Nat × Nat × Nat × Nat)
    (f : Attr → Attr) :
    updateAttr (x :: l) k f = (if x.key = k then f x else x) :: updateAttr l k f :=
  rfl

/-- Fetching the updated key after an in-place update. -/
theorem getAttr_updateAttr_self (db : List Attr) (k : Nat × Nat × Nat × Nat)
    (f : Attr → Attr) (hf : ∀ a, (f a).key = a.key) :
    getAttr (updateAttr db k f) k = (getAttr db k).map f := by
  induction db with
  | nil => rfl
  | cons a rest ih =>
      by_cases h : a.key = k
      · simp [updateAttr_cons, getAttr_cons, h, hf]
      · simp [updateAttr_cons, getAttr_cons, h, hf, ih]

/-- An in-place update at one key leaves fetches at other keys unchanged. -/
theorem getAttr_updateAttr_other (db : List Attr) (k k' : Nat × Nat × Nat × Nat)
    (f : Attr → Attr) (hne : k' ≠ k) (hf : ∀ a, (f a).key = a.key) :
    getAttr (updateAttr db k f) k' = getAttr db k' := by
  induction db with
  | nil => rfl
  | cons a rest ih =>
      by_cases h : a.key = k
      · simp [updateAttr_cons, getAttr_cons, h, hf, Ne.symm hne, ih]
      · by_cases h' : a.key = k'
        · simp [updateAttr_cons, getAttr_cons, h, h', hne]
        · simp [updateAttr_cons, getAttr_cons, h, h', ih]

/-- Appending a row with a different key leaves a fetch unchanged. -/
theorem getAttr_append_other (db : List Attr) (x : Attr)
    (k : Nat × Nat × Nat × Nat) (hx : x.key ≠ k) :
    getAttr (db ++ [x]) k = getAttr db k := by
  induction db with
  | nil => rw [List.nil_append, getAttr_cons, if_neg hx]
  | cons a rest ih =>
      rw [List.cons_append, getAttr_cons, getAttr_cons]
      by_cases h : a.key = k
      · rw [if_pos h, if_pos h]
      · rw [if_neg h, if_neg h, ih]

/-- Appending a row with the sought key to a table that lacks it makes the
fetch return that row. -/
theorem getAttr_append_self (db : List Attr) (x : Attr)
    (k : Nat × Nat × Nat × Nat) (hx : x.key = k)
    (hdb : getAttr db k = Option.none) :
    getAttr (db ++ [x]) k = some x := by
  induction db with
  | nil => rw [List.nil_append, getAttr_cons, if_pos hx]
  | cons a rest ih =>
      rw [getAttr_cons] at hdb
      rw [List.cons_append, getAttr_cons]
      by_cases h : a.key = k
      · rw [if_pos h] at hdb; exact Option.noConfusion hdb
      · rw [if_neg h] at hdb
        rw [if_neg h]
        exact ih hdb

/-- Fixture: entity 5 of content type 1 with no instance attributes. -/
def exEntity : Entity := { ct := 1, pk := 5 }

/-! ## C10: falsy values and the non-m2o branch of `save_attr` -/

/-- C10: for a non-m2o schema, when the entity has no `Attr` row for the
schema and the value is falsy, `save_attr` leaves the attribute storage
unchanged; when a row exists, the value (falsy or not) ends up stored in
the row's datatype column. -/
theorem save_attr_falsy_frame (schemata : List Schema) (schemaCT : Nat)
    (s : Schema) (e : Entity) (name : String) (value : Value) (db : List Attr)
    (hm : s.m2o = false) :
    (getAttr db (attrKeyFor schemaCT e s.pk) = Option.none →
      value.truthy = false →
      save_attr schemata schemaCT s e name value db = (db, Option.none)) ∧
    (∀ a, getAttr db (attrKeyFor schemaCT e s.pk) = some a →
      ∀ a', getAttr (save_attr schemata schemaCT s e name value db).1
          (attrKeyFor schemaCT e s.pk) = some a' →
      attr_get_value a' s = value) := by
  constructor
  · intro hget htr
    simp [save_attr, hm, save_attr_simple, hget, htr]
  · intro a hget a' hget'
    have h1 : (save_attr schemata schemaCT s e name value db).1
        = save_attr_simple db schemaCT s e value := by
      simp [save_attr, hm]
    rw [h1] at hget'
    by_cases heq : value = attr_get_value a s
    · have h2 : getAttr db (attrKeyFor schemaCT e s.pk) = some a' := by
        simpa [save_attr_simple, hget, heq] using hget'
      rw [hget] at h2
      obtain rfl := Option.some_inj.mp h2
      exact heq.symm
    · have h2 : getAttr
          (updateAttr db (attrKeyFor schemaCT e s.pk)
            (fun x => attr_set_value x s value)) (attrKeyFor schemaCT e s.pk)
          = some a' := by
        simpa [save_attr_simple, hget, heq] using hget'
      rw [getAttr_updateAttr_self db _ _
            (fun x => attr_set_value_key x s value), hget] at h2
      obtain rfl := Option.some_inj.mp h2
      exact attr_get_set_value a s value

/-- C10 witness: saving `None` to the absent `colour` attribute of a fresh
entity leaves the empty attribute table empty. -/
theorem save_attr_falsy_frame_witness :
    save_attr exSchemata 2 colourSchema exEntity "colour" .none []
      = ([], Option.none) :=
  (save_attr_falsy_frame exSchemata 2 colourSchema exEntity "colour"
      .none [] rfl).1 rfl rfl

/-! ## Injectivity of managed m2o schema names -/

/-- Appending to a fixed string on the left is injective. -/
theorem string_append_cancel_left {s a b : String} (h : s ++ a = s ++ b) :
    a = b := by
  have hd := congrArg String.data h
  simp only [String.data_append] at hd
  exact String.ext (List.append_cancel_left hd)

/-- For a fixed attribute name, managed m2o schema names determine the
choice. -/
theorem get_m2o_schema_name_inj (name : String) {a b : String}
    (h : get_m2o_schema_name name a = get_m2o_schema_name name b) : a = b := by
  unfold get_m2o_schema_name at h
  exact string_append_cancel_left h

/-- Membership transfers through the managed-name map. -/
theorem mem_map_m2o {name x : String} {l : List String} :
    get_m2o_schema_name name x ∈ l.map (get_m2o_schema_name name) ↔ x ∈ l := by
  constructor
  · intro h
    rcases List.mem_map.mp h with ⟨y, hy, he⟩
    exact (get_m2o_schema_name_inj name he) ▸ hy
  · exact fun h => List.mem_map_of_mem _ h

/-! ## C3: many-to-one choice synchronization -/

/-- Keys for the same entity and schema model agree exactly on the schema
pk. -/
theorem attrKeyFor_inj {schemaCT : Nat} {e : Entity} {p1 p2 : Nat}
    (h : attrKeyFor schemaCT e p1 = attrKeyFor schemaCT e p2) : p1 = p2 := by
  simpa [attrKeyFor] using h

/-- A choice step raises only `DoesNotExist`, never `ValueError`. -/
theorem saveChoiceAttr_err (schemata : List Schema) (schemaCT : Nat)
    (e : Entity) (name : String) (enabled : List String) (db : List Attr)
    (choice : String) :
    (saveChoiceAttr schemata schemaCT e name enabled db choice).2 = Option.none ∨
    (saveChoiceAttr schemata schemaCT e name enabled db choice).2
      = some .doesNotExist := by
  rcases hf : findSchemaByName schemata (get_m2o_schema_name name choice) with _ | ms
  · right
    simp [saveChoiceAttr, hf]
  · left
    rcases hg : getAttr db (attrKeyFor schemaCT e ms.pk) with _ | a0 <;>
      simp [saveChoiceAttr, hf, hg]

/-- A choice step whose managed schema exists succeeds. -/
theorem saveChoiceAttr_ok (schemata : List Schema) (schemaCT : Nat)
    (e : Entity) (name : String) (enabled : List String) (db : List Attr)
    (choice : String) (ms : Schema)
    (hf : findSchemaByName schemata (get_m2o_schema_name name choice) = some ms) :
    (saveChoiceAttr schemata schemaCT e name enabled db choice).2 = Option.none := by
  rcases hg : getAttr db (attrKeyFor schemaCT e ms.pk) with _ | a0 <;>
    simp [saveChoiceAttr, hf, hg]

/-- A choice step does not touch rows at other keys. -/
theorem saveChoiceAttr_frame (schemata : List Schema) (schemaCT : Nat)
    (e : Entity) (name : String) (enabled : List String) (db : List Attr)
    (choice : String) (k : Nat × Nat × Nat × Nat)
    (hk : ∀ ms, findSchemaByName schemata (get_m2o_schema_name name choice)
          = some ms → attrKeyFor schemaCT e ms.pk ≠ k) :
    getAttr (saveChoiceAttr schemata schemaCT e name enabled db choice).1 k
      = getAttr db k := by
  rcases hf : findSchemaByName schemata (get_m2o_schema_name name choice) with _ | ms
  · simp [saveChoiceAttr, hf]
  · have hne := hk ms hf
    rcases hg : getAttr db (attrKeyFor schemaCT e ms.pk) with _ | a0
    · have h1 := getAttr_append_other db
        (attr_set_value (mkAttr (attrKeyFor schemaCT e ms.pk)) ms
          (Value.bool (enabled.contains (get_m2o_schema_name name choice)))) k
        (by rw [attr_set_value_key, mkAttr_key]; exact hne)
      simpa [saveChoiceAttr, hf, hg] using h1
    · have h1 := getAttr_updateAttr_other db (attrKeyFor schemaCT e ms.pk) k
        (fun a => attr_set_value a ms
          (Value.bool (enabled.contains (get_m2o_schema_name name choice))))
        (fun he => hne he.symm) (fun x => attr_set_value_key x ms _)
      simpa [saveChoiceAttr, hf, hg] using h1

/-- A choice step whose managed schema exists leaves the entity's row for
that managed schema holding True exactly when the managed name is
enabled. -/
theorem saveChoiceAttr_get (schemata : List Schema) (schemaCT : Nat)
    (e : Entity) (name : String) (enabled : List String) (db : List Attr)
    (choice : String) (ms : Schema)
    (hf : findSchemaByName schemata (get_m2o_schema_name name choice) = some ms) :
    ∃ a, getAttr (saveChoiceAttr schemata schemaCT e name enabled db choice).1
          (attrKeyFor schemaCT e ms.pk) = some a ∧
      attr_get_value a ms
        = Value.bool (enabled.contains (get_m2o_schema_name name choice)) := by
  rcases hg : getAttr db (attrKeyFor schemaCT e ms.pk) with _ | a0
  · refine ⟨attr_set_value (mkAttr (attrKeyFor schemaCT e ms.pk)) ms
        (Value.bool (enabled.contains (get_m2o_schema_name name choice))),
      ?_, attr_get_set_value _ _ _⟩
    have h1 := getAttr_append_self db
      (attr_set_value (mkAttr (attrKeyFor schemaCT e ms.pk)) ms
        (Value.bool (enabled.contains (get_m2o_schema_name name choice))))
      (attrKeyFor schemaCT e ms.pk)
      (by rw [attr_set_value_key, mkAttr_key]) hg
    simpa [saveChoiceAttr, hf, hg] using h1
  · refine ⟨attr_set_value a0 ms
        (Value.bool (enabled.contains (get_m2o_schema_name name choice))),
      ?_, attr_get_set_value _ _ _⟩
    have h1 := getAttr_updateAttr_self db (attrKeyFor schemaCT e ms.pk)
      (fun a => attr_set_value a ms
        (Value.bool (enabled.contains (get_m2o_schema_name name choice))))
      (fun x => attr_set_value_key x ms _)
    rw [hg] at h1
    simpa [saveChoiceAttr, hf, hg] using h1

/-- The choice loop never raises `ValueError`. -/
theorem saveChoicesLoop_no_valueError (schemata : List Schema) (schemaCT : Nat)
    (e : Entity) (name : String) (enabled : List String)
    (cs : List (String × String)) :
    ∀ db, (saveChoicesLoop schemata schemaCT e name enabled db cs).2
      ≠ some .valueError := by
  induction cs with
  | nil =>
      intro db
      simp [saveChoicesLoop]
  | cons p rest ih =>
      intro db
      obtain ⟨c, t⟩ := p
      unfold saveChoicesLoop
      cases hstep : saveChoiceAttr schemata schemaCT e name enabled db c with
      | mk db1 err =>
        cases err with
        | none => exact ih db1
        | some er =>
            rcases saveChoiceAttr_err schemata schemaCT e name enabled db c with
              h | h <;> rw [hstep] at h
            · exact Option.noConfusion h
            · obtain rfl := Option.some_inj.mp h
              simp

/-- The choice loop succeeds when every managed schema exists. -/
theorem saveChoicesLoop_ok (schemata : List Schema) (schemaCT : Nat)
    (e : Entity) (name : String) (enabled : List String)
    (cs : List (String × String)) :
    ∀ db, (∀ p ∈ cs, ∃ ms, findSchemaByName schemata
          (get_m2o_schema_name name p.1) = some ms) →
      (saveChoicesLoop schemata schemaCT e name enabled db cs).2 = Option.none := by
  induction cs with
  | nil =>
      intro db _
      rfl
  | cons p rest ih =>
      intro db hex
      obtain ⟨c, t⟩ := p
      obtain ⟨ms, hms⟩ := hex (c, t) (by simp)
      unfold saveChoicesLoop
      cases hstep : saveChoiceAttr schemata schemaCT e name enabled db c with
      | mk db1 err =>
        cases err with
        | none => exact ih db1 (fun q hq => hex q (List.mem_cons_of_mem _ hq))
        | some er =>
            have := saveChoiceAttr_ok schemata schemaCT e name enabled db c ms hms
            rw [hstep] at this
            exact Option.noConfusion this

/-- The choice loop does not touch rows at keys no choice maps to. -/
theorem saveChoicesLoop_frame (schemata : List Schema) (schemaCT : Nat)
    (e : Entity) (name : String) (enabled : List String)
    (cs : List (String × String)) (k : Nat × Nat × Nat × Nat) :
    ∀ db, (∀ p ∈ cs, ∀ ms, findSchemaByName schemata
          (get_m2o_schema_name name p.1) = some ms →
          attrKeyFor schemaCT e ms.pk ≠ k) →
      getAttr (saveChoicesLoop schemata schemaCT e name enabled db cs).1 k
        = getAttr db k := by
  induction cs with
  | nil =>
      intro db _
      rfl
  | cons p rest ih =>
      intro db h
      obtain ⟨c, t⟩ := p
      unfold saveChoicesLoop
      cases hstep : saveChoiceAttr schemata schemaCT e name enabled db c with
      | mk db1 err =>
        have hdb1 : getAttr db1 k = getAttr db k := by
          have := saveChoiceAttr_frame schemata schemaCT e name enabled db c k
            (fun ms hms => h (c, t) (by simp) ms hms)
          rw [hstep] at this
          exact this
        cases err with
        | none =>
            rw [ih db1 (fun q hq => h q (List.mem_cons_of_mem _ hq))]
            exact hdb1
        | some er => exact hdb1

/-- The choice loop leaves, for every choice whose managed schema exists
(all of them existing and the keys not colliding), the entity's row for the
managed schema holding True exactly when the managed name is enabled. -/
theorem saveChoicesLoop_sync (schemata : List Schema) (schemaCT : Nat)
    (e : Entity) (name : String) (enabled : List String)
    (cs : List (String × String))
    (hnodup : (cs.map Prod.fst).Nodup)
    (hex : ∀ p ∈ cs, ∃ ms, findSchemaByName schemata
        (get_m2o_schema_name name p.1) = some ms)
    (hinj : ∀ p ∈ cs, ∀ q ∈ cs, ∀ msp msq,
        findSchemaByName schemata (get_m2o_schema_name name p.1) = some msp →
        findSchemaByName schemata (get_m2o_schema_name name q.1) = some msq →
        msp.pk = msq.pk → p.1 = q.1) :
    ∀ db, ∀ p ∈ cs, ∀ ms,
      findSchemaByName schemata (get_m2o_schema_name name p.1) = some ms →
      ∃ a, getAttr (saveChoicesLoop schemata schemaCT e name enabled db cs).1
            (attrKeyFor schemaCT e ms.pk) = some a ∧
        attr_get_value a ms
          = Value.bool (enabled.contains (get_m2o_schema_name name p.1)) := by
  induction cs with
  | nil =>
      intro db p hp
      cases hp
  | cons hd rest ih =>
      intro db p hp ms hms
      obtain ⟨c, t⟩ := hd
      obtain ⟨msc, hmsc⟩ := hex (c, t) (by simp)
      unfold saveChoicesLoop
      cases hstep : saveChoiceAttr schemata schemaCT e name enabled db c with
      | mk db1 err =>
        have herr : err = Option.none := by
          have := saveChoiceAttr_ok schemata schemaCT e name enabled db c msc hmsc
          rw [hstep] at this
          exact this
        subst herr
        rcases List.mem_cons.mp hp with hphd | hprest
        · -- p is the head choice
          subst hphd
          rw [hmsc] at hms
          obtain rfl := Option.some_inj.mp hms
          obtain ⟨a, ha, hav⟩ :=
            saveChoiceAttr_get schemata schemaCT e name enabled db c msc hmsc
          rw [hstep] at ha
          refine ⟨a, ?_, hav⟩
          rw [saveChoicesLoop_frame schemata schemaCT e name enabled rest _ db1 ?_]
          · exact ha
          · intro q hq msq hmsq hkeq
            have hpkeq : msq.pk = msc.pk := attrKeyFor_inj hkeq
            have hqc : q.1 = c :=
              hinj q (List.mem_cons_of_mem _ hq) (c, t) (by simp) msq msc hmsq hmsc hpkeq
            have hcrest : c ∈ rest.map Prod.fst :=
              hqc ▸ List.mem_map_of_mem _ hq
            have hn := hnodup
            rw [List.map_cons] at hn
            exact (List.nodup_cons.mp hn).1 hcrest
        · -- p is in the tail
          have hn := hnodup
          rw [List.map_cons] at hn
          exact ih (List.nodup_cons.mp hn).2
            (fun q hq => hex q (List.mem_cons_of_mem _ hq))
            (fun q hq r hr => hinj q (List.mem_cons_of_mem _ hq) r
              (List.mem_cons_of_mem _ hr))
            db1 p hprest ms hms

/-- A schema fetched by name is in the table and bears that name. -/
theorem findSchemaByName_mem {schemata : List Schema} {n : String} {s : Schema}
    (h : findSchemaByName schemata n = some s) : s ∈ schemata ∧ s.name = n := by
  refine ⟨List.mem_of_find?_eq_some h, ?_⟩
  have := List.find?_some h
  simpa using this

/-- Reduction of the m2o list branch of `save_attr` to its subset test. -/
theorem save_attr_m2o_list_reduce (schemata : List Schema) (schemaCT : Nat)
    (s : Schema) (e : Entity) (name : String) (items : List Scalar)
    (db : List Attr) (hm : s.m2o = true) :
    save_attr schemata schemaCT s e name (.list items) db
      = if (items.map (fun v => get_m2o_schema_name name v.pyStr)).all
            (fun n => (s.choices.map
              (fun c => get_m2o_schema_name name c.1)).contains n) then
          saveChoicesLoop schemata schemaCT e name
            (items.map (fun v => get_m2o_schema_name name v.pyStr)) db s.choices
        else (db, some .valueError) := by
  simp only [save_attr, hm, eq_self_iff_true, if_true]

/-- C3: for an m2o schema and a list value, `save_attr` raises `ValueError`
exactly when some list item is not among the schema's choices; when every
item is valid (and the managed schemata exist, with well-formed unique
names and pks), every choice's managed `Attr` for the entity ends up
holding True exactly when the choice is in the list. -/
theorem save_attr_m2o_list_sync (schemata : List Schema) (schemaCT : Nat)
    (s : Schema) (e : Entity) (name : String) (items : List Scalar)
    (db : List Attr) (hm : s.m2o = true) :
    ((save_attr schemata schemaCT s e name (.list items) db).2 = some .valueError
      ↔ ∃ v ∈ items, v.pyStr ∉ s.choices.map Prod.fst) ∧
    ((∀ v ∈ items, v.pyStr ∈ s.choices.map Prod.fst) →
     (s.choices.map Prod.fst).Nodup →
     (schemata.map Schema.pk).Nodup →
     (∀ p ∈ s.choices, ∃ ms, findSchemaByName schemata
         (get_m2o_schema_name name p.1) = some ms) →
     ∀ p ∈ s.choices, ∀ ms,
       findSchemaByName schemata (get_m2o_schema_name name p.1) = some ms →
       ∃ a, getAttr (save_attr schemata schemaCT s e name (.list items) db).1
             (attrKeyFor schemaCT e ms.pk) = some a ∧
         attr_get_value a ms
           = Value.bool (decide (p.1 ∈ items.map Scalar.pyStr))) := by
  have hkey : ((items.map (fun v => get_m2o_schema_name name v.pyStr)).all
        (fun n => (s.choices.map
          (fun c => get_m2o_schema_name name c.1)).contains n) = true)
      ↔ ∀ v ∈ items, v.pyStr ∈ s.choices.map Prod.fst := by
    rw [List.all_eq_true]
    constructor
    · intro h v hv
      have h1 := h _ (List.mem_map_of_mem
        (fun v => get_m2o_schema_name name v.pyStr) hv)
      rw [List.elem_iff] at h1
      have h2 : get_m2o_schema_name name v.pyStr
          ∈ (s.choices.map Prod.fst).map (get_m2o_schema_name name) := by
        simpa [List.map_map] using h1
      exact mem_map_m2o.mp h2
    · intro h n hn
      rcases List.mem_map.mp hn with ⟨v, hv, rfl⟩
      rw [List.elem_iff]
      have h2 := List.mem_map_of_mem (get_m2o_schema_name name) (h v hv)
      simpa [List.map_map] using h2
  constructor
  · constructor
    · intro hres
      by_contra hno
      push_neg at hno
      have hall := hkey.mpr hno
      rw [save_attr_m2o_list_reduce schemata schemaCT s e name items db hm,
          if_pos hall] at hres
      exact saveChoicesLoop_no_valueError _ _ _ _ _ _ db hres
    · intro hex
      have hallf : ¬ ((items.map (fun v => get_m2o_schema_name name v.pyStr)).all
          (fun n => (s.choices.map
            (fun c => get_m2o_schema_name name c.1)).contains n) = true) := by
        intro hall
        rcases hex with ⟨v, hv, hnv⟩
        exact hnv (hkey.mp hall v hv)
      rw [save_attr_m2o_list_reduce schemata schemaCT s e name items db hm,
          if_neg hallf]
  · intro hvalid hnodup hpk hex p hp ms hms
    have hall := hkey.mpr hvalid
    rw [save_attr_m2o_list_reduce schemata schemaCT s e name items db hm,
        if_pos hall]
    have hinj : ∀ q1 ∈ s.choices, ∀ q2 ∈ s.choices, ∀ ms1 ms2,
        findSchemaByName schemata (get_m2o_schema_name name q1.1) = some ms1 →
        findSchemaByName schemata (get_m2o_schema_name name q2.1) = some ms2 →
        ms1.pk = ms2.pk → q1.1 = q2.1 := by
      intro q1 h1 q2 h2 ms1 ms2 hf1 hf2 hpkeq
      have hm1 := findSchemaByName_mem hf1
      have hm2 := findSchemaByName_mem hf2
      have hms12 : ms1 = ms2 := List.inj_on_of_nodup_map hpk hm1.1 hm2.1 hpkeq
      exact get_m2o_schema_name_inj name (by rw [← hm1.2, ← hm2.2, hms12])
    obtain ⟨a, ha, hav⟩ := saveChoicesLoop_sync schemata schemaCT e name
      (items.map (fun v => get_m2o_schema_name name v.pyStr)) s.choices
      hnodup hex hinj db p hp ms hms
    refine ⟨a, ha, ?_⟩
    rw [hav]
    have hiff : ((items.map (fun v => get_m2o_schema_name name v.pyStr)).contains
        (get_m2o_schema_name name p.1) = true) ↔ p.1 ∈ items.map Scalar.pyStr := by
      rw [List.elem_iff]
      constructor
      · intro h
        have h2 : get_m2o_schema_name name p.1
            ∈ (items.map Scalar.pyStr).map (get_m2o_schema_name name) := by
          simpa [List.map_map] using h
        exact mem_map_m2o.mp h2
      · intro h
        have h2 := List.mem_map_of_mem (get_m2o_schema_name name) h
        simpa [List.map_map] using h2
    by_cases hmem : p.1 ∈ items.map Scalar.pyStr
    · rw [hiff.mpr hmem]
      simp [hmem]
    · have hc : ((items.map (fun v => get_m2o_schema_name name v.pyStr)).contains
          (get_m2o_schema_name name p.1)) = false := by
        rcases Bool.eq_false_or_eq_true _ with hb | hb
        · exact absurd (hiff.mp hb) hmem
        · exact hb
      rw [hc]
      simp [hmem]

/-- C3 witness: saving `size = ['small']` on a fresh entity stores True in
the managed `m2o_size_small` attribute and False in `m2o_size_large`. -/
theorem save_attr_m2o_list_sync_witness :
    (save_attr exSchemata 2 sizeSchema exEntity "size"
        (.list [.str "small"]) []).2 ≠ some .valueError ∧
    (∃ a, getAttr (save_attr exSchemata 2 sizeSchema exEntity "size"
          (.list [.str "small"]) []).1 (attrKeyFor 2 exEntity 14) = some a ∧
        attr_get_value a m2oSizeSmallSchema = .bool true) ∧
    (∃ a, getAttr (save_attr exSchemata 2 sizeSchema exEntity "size"
          (.list [.str "small"]) []).1 (attrKeyFor 2 exEntity 15) = some a ∧
        attr_get_value a m2oSizeLargeSchema = .bool false) := by
  have h := save_attr_m2o_list_sync exSchemata 2 sizeSchema exEntity "size"
    [.str "small"] [] rfl
  have hexw : ∀ p ∈ sizeSchema.choices, ∃ ms,
      findSchemaByName exSchemata (get_m2o_schema_name "size" p.1) = some ms := by
    intro p hp
    rcases List.mem_cons.mp hp with rfl | hp2
    · exact ⟨m2oSizeSmallSchema, by decide⟩
    · obtain rfl := List.mem_singleton.mp hp2
      exact ⟨m2oSizeLargeSchema, by decide⟩
  refine ⟨?_, ?_, ?_⟩
  · intro hc
    rcases h.1.mp hc with ⟨v, hv, hnv⟩
    obtain rfl := List.mem_singleton.mp hv
    exact hnv (by decide)
  · have h2 := h.2 (by decide) (by decide) (by decide) hexw
      ("small", "Small") (by decide) m2oSizeSmallSchema (by decide)
    simpa using h2
  · have h2 := h.2 (by decide) (by decide) (by decide) hexw
      ("large", "Large") (by decide) m2oSizeLargeSchema (by decide)
    simpa using h2

/-! ## C4: `BaseSchema.save` and managed schema creation -/

/-- Saving a new title on the schema fetched by name
(`ms.title = title; ms.save()`; names are unique). -/
def updateSchemaTitle (schemata : List Schema) (n : String) (title : String) :
    List Schema :=
  schemata.map (fun sc => if sc.name = n then { sc with title := title } else sc)

/-- One iteration of the managed-schema loop of `BaseSchema.save`
(`eav/models.py` 103-119): fetch the managed schema by name; create it with
datatype bool and managed=True when missing (`nextPk` is the pk the insert
allocates); otherwise update its title when it differs. -/
def saveManagedChoice (name : String) (schemata : List Schema) (nextPk : Nat)
    (choice title : String) : List Schema × Nat :=
  match findSchemaByName schemata (get_m2o_schema_name name choice) with
  | some ms =>
      if ms.title = title then (schemata, nextPk)
      else (updateSchemaTitle schemata (get_m2o_schema_name name choice) title,
            nextPk)
  | Option.none =>
      (schemata ++ [{ pk := nextPk, name := get_m2o_schema_name name choice,
                      title := title, datatype := .bool, managed := true }],
       nextPk + 1)

/-- The managed-schema loop over the choice set. -/
def saveManagedLoop (name : String) :
    List Schema → Nat → List (String × String) → List Schema × Nat
  | schemata, nextPk, [] => (schemata, nextPk)
  | schemata, nextPk, (choice, title) :: rest =>
      saveManagedLoop name (saveManagedChoice name schemata nextPk choice title).1
        (saveManagedChoice name schemata nextPk choice title).2 rest

/-- `super(BaseSchema, self).save()`: insert the row or update it in place
by pk. -/
def upsertSchema (schemata : List Schema) (s : Schema) : List Schema :=
  if schemata.any (fun sc => sc.pk == s.pk) then
    schemata.map (fun sc => if sc.pk = s.pk then s else sc)
  else schemata ++ [s]

/-- `BaseSchema.save` (`eav/models.py` 99-120): persist the schema row, and
for an m2o schema walk its choice set creating or retitling the managed
schemata. -/
def schemaSave (schemata : List Schema) (s : Schema) (nextPk : Nat) :
    List Schema × Nat :=
  if s.m2o then saveManagedLoop s.name (upsertSchema schemata s) nextPk s.choices
  else (upsertSchema schemata s, nextPk)

/-- Fixture: a user-created, unmanaged text schema that happens to carry a
managed m2o name. -/
def rogueSchema : Schema :=
  { pk := 21, name := "m2o_size_small", title := "Rogue", datatype := .text }

/-- Fixture: an m2o `size` schema with the single choice small. -/
def sizeSchema4 : Schema :=
  { pk := 22, name := "size", title := "Size", datatype := .text, m2o := true,
    choices := [("small", "Small")] }

/-- C4 counterexample: saving the m2o `size` schema over a table already
holding an unmanaged text schema named `m2o_size_small` does not leave a
schema of that name with datatype bool and managed=True — the existing
schema is reused as-is (only retitled). -/
theorem schema_save_counterexample :
    ¬ (∃ ms ∈ (schemaSave [rogueSchema] sizeSchema4 100).1,
        ms.name = get_m2o_schema_name "size" "small" ∧
        ms.datatype = .bool ∧ ms.managed = true) := by
  decide

/-- Names are untouched by a title update. -/
theorem updateSchemaTitle_names (schemata : List Schema) (n t : String) :
    (updateSchemaTitle schemata n t).map Schema.name = schemata.map Schema.name := by
  induction schemata with
  | nil => rfl
  | cons sc rest ih =>
      by_cases h : sc.name = n <;> simp [updateSchemaTitle, h] <;>
        simpa [updateSchemaTitle] using ih

/-- Unfolding a schema fetch over a cons cell. -/
theorem findSchemaByName_cons (sc : Schema) (l : List Schema) (n : String) :
    findSchemaByName (sc :: l) n
      = if sc.name = n then some sc else findSchemaByName l n := by
  by_cases h : sc.name = n
  · rw [if_pos h]; exact List.find?_cons_of_pos _ (by simpa using h)
  · rw [if_neg h]; exact List.find?_cons_of_neg _ (by simpa using h)

/-- Fetching a name other than the updated one is unaffected. -/
theorem findSchemaByName_updateTitle_other (schemata : List Schema)
    (n n' t : String) (hne : n ≠ n') :
    findSchemaByName (updateSchemaTitle schemata n' t) n
      = findSchemaByName schemata n := by
  induction schemata with
  | nil => rfl
  | cons sc rest ih =>
      have hupd : updateSchemaTitle (sc :: rest) n' t
          = (if sc.name = n' then { sc with title := t } else sc)
            :: updateSchemaTitle rest n' t := rfl
      rw [hupd, findSchemaByName_cons, findSchemaByName_cons]
      by_cases h : sc.name = n'
      · rw [if_pos h]
        have h2 : ¬ sc.name = n := fun h2 => hne (h2.symm.trans h)
        rw [if_neg (show ¬ ({ sc with title := t } : Schema).name = n from h2),
            if_neg h2, ih]
      · rw [if_neg h]
        by_cases h2 : sc.name = n
        · rw [if_pos h2, if_pos h2]
        · rw [if_neg h2, if_neg h2, ih]

/-- Fetching a name other than an appended schema's is unaffected. -/
theorem findSchemaByName_append_other (schemata : List Schema) (x : Schema)
    (n : String) (hx : x.name ≠ n) :
    findSchemaByName (schemata ++ [x]) n = findSchemaByName schemata n := by
  induction schemata with
  | nil => rw [List.nil_append, findSchemaByName_cons, if_neg hx]
  | cons sc rest ih =>
      rw [List.cons_append, findSchemaByName_cons, findSchemaByName_cons]
      by_cases h : sc.name = n
      · rw [if_pos h, if_pos h]
      · rw [if_neg h, if_neg h, ih]

/-- A schema whose name no remaining choice touches survives the loop with
all its fields. -/
theorem saveManagedLoop_frame (name : String)
    (cs : List (String × String)) :
    ∀ schemata nextPk (ms : Schema), ms ∈ schemata →
      (∀ p ∈ cs, ms.name ≠ get_m2o_schema_name name p.1) →
      ms ∈ (saveManagedLoop name schemata nextPk cs).1 := by
  induction cs with
  | nil =>
      intro schemata nextPk ms hms _
      exact hms
  | cons p rest ih =>
      intro schemata nextPk ms hms hdiff
      obtain ⟨c, t⟩ := p
      have hstep : ms ∈ (saveManagedChoice name schemata nextPk c t).1 := by
        unfold saveManagedChoice
        rcases hf : findSchemaByName schemata (get_m2o_schema_name name c)
          with _ | old
        · exact List.mem_append_left _ hms
        · by_cases he : old.title = t
          · simpa [he] using hms
          · simp only [he, if_false]
            have : (if ms.name = get_m2o_schema_name name c
                then { ms with title := t } else ms) = ms := by
              rw [if_neg (hdiff (c, t) (by simp))]
            exact this ▸ List.mem_map_of_mem _ hms
      rw [saveManagedLoop]
      exact ih _ _ ms hstep (fun q hq => hdiff q (List.mem_cons_of_mem _ hq))

/-- The loop preserves distinctness of schema names. -/
theorem saveManagedLoop_nodup (name : String)
    (cs : List (String × String)) :
    ∀ schemata nextPk, (schemata.map Schema.name).Nodup →
      (((saveManagedLoop name schemata nextPk cs).1.map Schema.name)).Nodup := by
  induction cs with
  | nil =>
      intro schemata nextPk h
      exact h
  | cons p rest ih =>
      intro schemata nextPk h
      obtain ⟨c, t⟩ := p
      rw [saveManagedLoop]
      apply ih
      unfold saveManagedChoice
      rcases hf : findSchemaByName schemata (get_m2o_schema_name name c)
        with _ | old
      · have hnotin : get_m2o_schema_name name c ∉ schemata.map Schema.name := by
          intro hin
          rcases List.mem_map.mp hin with ⟨sc, hsc, hname⟩
          have := List.find?_eq_none.mp hf sc hsc
          simp [hname] at this
        simpa [List.nodup_append] using ⟨h, fun sc hsc hname =>
          hnotin (hname ▸ List.mem_map_of_mem _ hsc)⟩
      · by_cases he : old.title = t
        · simpa [he] using h
        · simp only [he, if_false]
          rw [updateSchemaTitle_names]
          exact h

/-- After the loop, every choice has a schema bearing its managed name:
created with datatype bool and managed=True when the name was absent,
otherwise the pre-existing schema reused with only its title brought up to
date. -/
theorem saveManagedLoop_exists (name : String) (cs : List (String × String))
    (hcnodup : (cs.map Prod.fst).Nodup) :
    ∀ schemata nextPk, ∀ p ∈ cs,
      ∃ ms ∈ (saveManagedLoop name schemata nextPk cs).1,
        ms.name = get_m2o_schema_name name p.1 ∧ ms.title = p.2 ∧
        (findSchemaByName schemata (get_m2o_schema_name name p.1)
            = Option.none →
          ms.datatype = .bool ∧ ms.managed = true) ∧
        (∀ old, findSchemaByName schemata (get_m2o_schema_name name p.1)
              = some old →
          ms.datatype = old.datatype ∧ ms.managed = old.managed ∧
          ms.pk = old.pk) := by
  induction cs with
  | nil =>
      intro schemata nextPk p hp
      cases hp
  | cons hd rest ih =>
      intro schemata nextPk p hp
      obtain ⟨c, t⟩ := hd
      have hnod := hcnodup
      rw [List.map_cons] at hnod
      have hnotin := (List.nodup_cons.mp hnod).1
      have hrestnodup := (List.nodup_cons.mp hnod).2
      have hdiffrest : ∀ q ∈ rest, get_m2o_schema_name name c
          ≠ get_m2o_schema_name name q.1 := by
        intro q hq heq
        have hc : c = q.1 := get_m2o_schema_name_inj name heq
        apply hnotin
        rw [show ((c, t).1 : String) = c from rfl, hc]
        exact List.mem_map_of_mem Prod.fst hq
      rw [saveManagedLoop]
      rcases List.mem_cons.mp hp with hphd | hprest
      · subst hphd
        rcases hf : findSchemaByName schemata (get_m2o_schema_name name c)
          with _ | old
        · refine ⟨⟨nextPk, get_m2o_schema_name name c, t, .bool,
              false, true, false, []⟩, ?_, rfl, rfl, ?_, ?_⟩
          · apply saveManagedLoop_frame
            · simp [saveManagedChoice, hf]
            · intro q hq
              exact hdiffrest q hq
          · intro _
            exact ⟨rfl, rfl⟩
          · intro old2 hold2
            exact Option.noConfusion hold2
        · have hon := findSchemaByName_mem hf
          by_cases he : old.title = t
          · refine ⟨old, ?_, hon.2, he, ?_, ?_⟩
            · apply saveManagedLoop_frame
              · simp [saveManagedChoice, hf, he]
                exact hon.1
              · intro q hq
                rw [hon.2]
                exact hdiffrest q hq
            · intro hnone
              exact Option.noConfusion hnone
            · intro old2 hold2
              obtain rfl := Option.some_inj.mp hold2
              exact ⟨rfl, rfl, rfl⟩
          · refine ⟨{ old with title := t }, ?_, hon.2, rfl, ?_, ?_⟩
            · apply saveManagedLoop_frame
              · simp only [saveManagedChoice, hf, he, if_false]
                have hmap : (if old.name = get_m2o_schema_name name c
                    then { old with title := t } else old)
                    = { old with title := t } := by
                  rw [if_pos hon.2]
                exact hmap ▸ List.mem_map_of_mem _ hon.1
              · intro q hq
                show ({ old with title := t } : Schema).name
                  ≠ get_m2o_schema_name name q.1
                have hnm : ({ old with title := t } : Schema).name = old.name := rfl
                rw [hnm, hon.2]
                exact hdiffrest q hq
            · intro hnone
              exact Option.noConfusion hnone
            · intro old2 hold2
              obtain rfl := Option.some_inj.mp hold2
              exact ⟨rfl, rfl, rfl⟩
      · have hne : get_m2o_schema_name name p.1 ≠ get_m2o_schema_name name c := by
          intro heq
          have hc : p.1 = c := get_m2o_schema_name_inj name heq
          apply hnotin
          rw [show ((c, t).1 : String) = c from rfl, ← hc]
          exact List.mem_map_of_mem Prod.fst hprest
        have hfindeq : findSchemaByName (saveManagedChoice name schemata nextPk c t).1
            (get_m2o_schema_name name p.1)
            = findSchemaByName schemata (get_m2o_schema_name name p.1) := by
          rcases hf : findSchemaByName schemata (get_m2o_schema_name name c)
            with _ | old
          · simp only [saveManagedChoice, hf]
            exact findSchemaByName_append_other _ _ _ (fun h => hne h.symm)
          · by_cases he : old.title = t
            · simp [saveManagedChoice, hf, he]
            · simp only [saveManagedChoice, hf, he, if_false]
              exact findSchemaByName_updateTitle_other _ _ _ _ hne
        obtain ⟨ms, hmem, hname, htitle, hfresh, hold⟩ :=
          ih hrestnodup (saveManagedChoice name schemata nextPk c t).1
            (saveManagedChoice name schemata nextPk c t).2 p hprest
        exact ⟨ms, hmem, hname, htitle,
          fun hnone => hfresh (by rw [hfindeq]; exact hnone),
          fun old2 hold2 => hold old2 (by rw [hfindeq]; exact hold2)⟩

/-- C4 amended: after saving an m2o schema named N (with distinct choice
names over a table of distinct schema names), every (choice, title) pair has
a schema named `m2o_N_<choice>` carrying the choice's title; when no schema
of that name pre-existed, it was created with datatype bool and
managed=True; a pre-existing schema of that name is reused (datatype,
managed flag and pk unchanged, only the title brought up to date), and no
duplicate names arise. -/
theorem schema_save_amended (schemata : List Schema) (s : Schema) (nextPk : Nat)
    (hm : s.m2o = true)
    (hnodup : ((upsertSchema schemata s).map Schema.name).Nodup)
    (hcnodup : (s.choices.map Prod.fst).Nodup) :
    (((schemaSave schemata s nextPk).1.map Schema.name).Nodup) ∧
    (∀ p ∈ s.choices, ∃ ms ∈ (schemaSave schemata s nextPk).1,
        ms.name = get_m2o_schema_name s.name p.1 ∧ ms.title = p.2 ∧
        (findSchemaByName (upsertSchema schemata s)
            (get_m2o_schema_name s.name p.1) = Option.none →
          ms.datatype = .bool ∧ ms.managed = true) ∧
        (∀ old, findSchemaByName (upsertSchema schemata s)
              (get_m2o_schema_name s.name p.1) = some old →
          ms.datatype = old.datatype ∧ ms.managed = old.managed ∧
          ms.pk = old.pk)) := by
  have hloop : schemaSave schemata s nextPk
      = saveManagedLoop s.name (upsertSchema schemata s) nextPk s.choices := by
    simp [schemaSave, hm]
  constructor
  · rw [hloop]
    exact saveManagedLoop_nodup _ _ _ _ hnodup
  · intro p hp
    rw [hloop]
    exact saveManagedLoop_exists s.name s.choices hcnodup
      (upsertSchema schemata s) nextPk p hp

/-- C4 amended witness: saving the m2o `size` schema into an empty table
creates the managed boolean schema `m2o_size_small` titled Small. -/
theorem schema_save_amended_witness :
    ∃ ms ∈ (schemaSave [] sizeSchema4 100).1,
      ms.name = get_m2o_schema_name "size" "small" ∧ ms.title = "Small" ∧
      ms.datatype = .bool ∧ ms.managed = true := by
  have h := schema_save_amended [] sizeSchema4 100 rfl (by decide) (by decide)
  obtain ⟨ms, hmem, hname, htitle, hfresh, _⟩ :=
    h.2 ("small", "Small") (by decide)
  exact ⟨ms, hmem, hname, htitle, (hfresh (by decide)).1, (hfresh (by decide)).2⟩

/-! ## C6 and C9: `BaseEntity.__getattr__` and `BaseEntity.save` -/

/-- Result of Python attribute access: a value or `AttributeError`. -/
inductive GetattrResult
  | ok (v : Value)
  | attributeError
deriving DecidableEq, Repr

/-- Python `name.startswith('_')`, computed on the character list so that
concrete instances evaluate in the kernel. -/
def startsWithUnderscore (name : String) : Bool :=
  match name.data with
  | [] => false
  | c :: _ => c == '_'

/-- `BaseEntity.__getattr__` (`eav/models.py` 423-428): for a name not
starting with an underscore that names an applicable schema, the stored
`Attr` value (or `None` when absent); every other name raises
`AttributeError`. -/
def baseEntityGetattr (schemata : List Schema) (schemaCT : Nat) (db : List Attr)
    (e : Entity) (name : String) : GetattrResult :=
  if !(startsWithUnderscore name) then
    match findSchemaByName schemata name with
    | some s =>
        match getAttr db (attrKeyFor schemaCT e s.pk) with
        | some a => .ok (attr_get_value a s)
        | Option.none => .ok .none
    | Option.none => .attributeError
  else .attributeError

/-- Python `getattr(self, name, None)` on an entity: the instance attribute
when assigned, otherwise `__getattr__` with `AttributeError` defaulting to
`None`. -/
def getattrOrNone (schemata : List Schema) (schemaCT : Nat) (db : List Attr)
    (e : Entity) (name : String) : Value :=
  match e.vars.lookup name with
  | some v => v
  | Option.none =>
      match baseEntityGetattr schemata schemaCT db e name with
      | .ok v => v
      | .attributeError => Value.none

/-- The attribute-saving loop of `BaseEntity.save`: for each schema in
order, resolve the instance value and `save_attr` it unless the schema is
managed; the first exception aborts the loop. -/
def entitySaveLoop (schemata : List Schema) (schemaCT : Nat) (e : Entity) :
    List Attr → List Schema → List Attr × Option SaveErr
  | db, [] => (db, Option.none)
  | db, s :: rest =>
      if s.managed then entitySaveLoop schemata schemaCT e db rest
      else
        match save_attr schemata schemaCT s e s.name
            (getattrOrNone schemata schemaCT db e s.name) db with
        | (db1, Option.none) => entitySaveLoop schemata schemaCT e db1 rest
        | (db1, some err) => (db1, some err)

/-- `BaseEntity.save` (`eav/models.py` 405-421): the entity row itself is
persisted by the framework; then every non-managed schema's attribute is
stored.  The `eav` parameter is accepted (defaulting True) but never read
by the body. -/
def entitySave (schemata : List Schema) (schemaCT : Nat) (e : Entity)
    (eav : Bool) (db : List Attr) : List Attr × Option SaveErr :=
  entitySaveLoop schemata schemaCT e db schemata

/-- C6: dynamic attribute access returns the stored `Attr` value for a
schema-named attribute (None when no row exists) and raises
`AttributeError` for underscore-prefixed or non-schema names. -/
theorem entity_getattr_spec (schemata : List Schema) (schemaCT : Nat)
    (db : List Attr) (e : Entity) (name : String) :
    (startsWithUnderscore name = false → ∀ s, findSchemaByName schemata name = some s →
      (∀ a, getAttr db (attrKeyFor schemaCT e s.pk) = some a →
        baseEntityGetattr schemata schemaCT db e name = .ok (attr_get_value a s)) ∧
      (getAttr db (attrKeyFor schemaCT e s.pk) = Option.none →
        baseEntityGetattr schemata schemaCT db e name = .ok .none)) ∧
    (startsWithUnderscore name = true ∨ findSchemaByName schemata name = Option.none →
      baseEntityGetattr schemata schemaCT db e name = .attributeError) := by
  constructor
  · intro hu s hs
    constructor
    · intro a ha
      simp [baseEntityGetattr, hu, hs, ha]
    · intro ha
      simp [baseEntityGetattr, hu, hs, ha]
  · intro h
    rcases h with h | h
    · simp [baseEntityGetattr, h]
    · by_cases hu : startsWithUnderscore name
      · simp [baseEntityGetattr, hu]
      · simp [baseEntityGetattr, hu, h]

/-- C6 witness: reading `colour` off an entity with a stored green `Attr`
yields `green`, and reading an unknown name raises `AttributeError`. -/
theorem entity_getattr_spec_witness :
    baseEntityGetattr exSchemata 2 [greenAttr] exEntity "colour"
        = .ok (.str "green") ∧
    baseEntityGetattr exSchemata 2 [greenAttr] exEntity "missing"
        = .attributeError := by
  constructor
  · have h := ((entity_getattr_spec exSchemata 2 [greenAttr] exEntity
      "colour").1 (by decide) colourSchema (by decide)).1 greenAttr (by decide)
    rw [h]
    rfl
  · exact (entity_getattr_spec exSchemata 2 [greenAttr] exEntity "missing").2
      (Or.inr (by decide))

/-- C9: `BaseEntity.save` never reads its `eav` parameter — saving with
`eav=False` produces exactly the same attribute writes as `eav=True`,
namely one `save_attr` per non-managed schema. -/
theorem entity_save_ignores_eav (schemata : List Schema) (schemaCT : Nat)
    (e : Entity) (db : List Attr) (eav : Bool) :
    entitySave schemata schemaCT e eav db = entitySave schemata schemaCT e true db
      ∧ entitySave schemata schemaCT e false db
        = entitySaveLoop schemata schemaCT e db schemata :=
  ⟨rfl, rfl⟩

/-! ## C8: `EntityManager.create` -/

/-- Outcome of `EntityManager.create`: the new instance with the resulting
attribute table, a `NameError` before anything is written, or an exception
escaping from the attribute-saving phase (the entity row already inserted). -/
inductive CreateResult
  | ok (e : Entity) (db : List Attr)
  | nameError (db : List Attr)
  | saveError (e : Entity) (db : List Attr) (err : SaveErr)
deriving DecidableEq, Repr

/-- The attribute table a create outcome leaves behind. -/
def CreateResult.db : CreateResult → List Attr
  | .ok _ db => db
  | .nameError db => db
  | .saveError _ db _ => db

/-- Did create return an instance? -/
def CreateResult.isOk : CreateResult → Bool
  | .ok _ _ => true
  | .nameError _ => false
  | .saveError _ _ _ => false

/-- `EntityManager.create` (`eav/models.py` 337-372): reject unknown
keyword names with `NameError` before creating anything; otherwise build
the instance, assign every keyword, and save it together with its EAV
attributes. -/
def managerCreate (fields : List String) (schemata : List Schema)
    (schemaCT entityCT newPk : Nat) (kwargs : List (String × Value))
    (db : List Attr) : CreateResult :=
  if kwargs.all (fun kv => (fields ++ schemata.map Schema.name).contains kv.1) then
    match entitySave schemata schemaCT ⟨entityCT, newPk, kwargs⟩ true db with
    | (db1, Option.none) => .ok ⟨entityCT, newPk, kwargs⟩ db1
    | (db1, some err) => .saveError ⟨entityCT, newPk, kwargs⟩ db1 err
  else .nameError db

/-- C8 counterexample: every keyword name of `size=['wrong']` is a known
schema name, yet create returns no instance — the invalid m2o value raises
`ValueError` during the attribute-saving phase. -/
theorem create_counterexample :
    ([(("size" : String), Value.list [.str "wrong"])].all
        (fun kv => ((["title"] ++ exSchemata.map Schema.name)).contains kv.1)
      = true) ∧
    (managerCreate ["title"] exSchemata 2 1 5
        [("size", .list [.str "wrong"])] []).isOk = false := by
  decide

/-- C8 amended: create raises `NameError`, leaving the attribute table
untouched, exactly when some keyword name is neither a model field nor an
available schema name; when every name is known and the attribute-saving
phase raises nothing, it returns the instance (carrying every keyword) and
the attribute table the save produced. -/
theorem create_amended (fields : List String) (schemata : List Schema)
    (schemaCT entityCT newPk : Nat) (kwargs : List (String × Value))
    (db : List Attr) :
    (managerCreate fields schemata schemaCT entityCT newPk kwargs db
        = .nameError db
      ↔ ∃ kv ∈ kwargs, kv.1 ∉ fields ++ schemata.map Schema.name) ∧
    ((∀ kv ∈ kwargs, kv.1 ∈ fields ++ schemata.map Schema.name) →
      ∀ db1, entitySave schemata schemaCT ⟨entityCT, newPk, kwargs⟩ true db
          = (db1, Option.none) →
        managerCreate fields schemata schemaCT entityCT newPk kwargs db
          = .ok ⟨entityCT, newPk, kwargs⟩ db1) := by
  constructor
  · constructor
    · intro hres
      by_contra hno
      push_neg at hno
      have hall : kwargs.all
          (fun kv => (fields ++ schemata.map Schema.name).contains kv.1) = true := by
        rw [List.all_eq_true]
        intro kv hkv
        exact List.elem_iff.mpr (hno kv hkv)
      unfold managerCreate at hres
      rw [if_pos hall] at hres
      rcases hsave : entitySave schemata schemaCT ⟨entityCT, newPk, kwargs⟩ true db
        with ⟨db1, err⟩
      rw [hsave] at hres
      cases err with
      | none => exact CreateResult.noConfusion hres
      | some er => exact CreateResult.noConfusion hres
    · intro hex
      have hallf : ¬ kwargs.all
          (fun kv => (fields ++ schemata.map Schema.name).contains kv.1) = true := by
        rw [List.all_eq_true]
        intro hall
        rcases hex with ⟨kv, hkv, hnmem⟩
        exact hnmem (List.elem_iff.mp (hall kv hkv))
      unfold managerCreate
      rw [if_neg hallf]
  · intro hall' db1 hsave
    have hall : kwargs.all
        (fun kv => (fields ++ schemata.map Schema.name).contains kv.1) = true := by
      rw [List.all_eq_true]
      intro kv hkv
      exact List.elem_iff.mpr (hall' kv hkv)
    unfold managerCreate
    rw [if_pos hall, hsave]

/-- C8 amended witness: `create(colour='green')` over the single `colour`
schema returns the instance and one green text `Attr`. -/
theorem create_amended_witness :
    managerCreate ["title"] [colourSchema] 2 1 7 [("colour", .str "green")] []
      = .ok ⟨1, 7, [("colour", .str "green")]⟩
          [{ entity_content_type := 1, entity_object_id := 7,
             schema_content_type := 2, schema_object_id := 11,
             value_text := .str "green" }] :=
  (create_amended ["title"] [colourSchema] 2 1 7
      [("colour", .str "green")] []).2 (by decide) _ (by decide)

/-! ## C2: the uniqueness invariant of `Attr` rows -/

/-- An update with a key-preserving function leaves the key column
unchanged. -/
theorem updateAttr_map_key (db : List Attr) (k : Nat × Nat × Nat × Nat)
    (f : Attr → Attr) (hf : ∀ a, (f a).key = a.key) :
    (updateAttr db k f).map Attr.key = db.map Attr.key := by
  unfold updateAttr
  rw [List.map_map]
  apply List.map_congr_left
  intro a _
  by_cases h : a.key = k
  · simp [h, hf]
  · simp [h]

/-- A key the table lacks is absent from its key column. -/
theorem getAttr_none_not_mem (db : List Attr) (k : Nat × Nat × Nat × Nat)
    (h : getAttr db k = Option.none) : k ∉ db.map Attr.key := by
  intro hmem
  rcases List.mem_map.mp hmem with ⟨a, ha, hk⟩
  exact absurd (by simp [hk]) (List.find?_eq_none.mp h a ha)

/-- Appending a row whose key is absent keeps keys distinct. -/
theorem uniqueAttrs_append (db : List Attr) (x : Attr)
    (h : uniqueAttrs db) (hx : getAttr db x.key = Option.none) :
    uniqueAttrs (db ++ [x]) := by
  unfold uniqueAttrs
  rw [List.map_append]
  refine List.Nodup.append h (List.nodup_singleton _) ?_
  simp only [List.map_cons, List.map_nil]
  rw [List.disjoint_singleton]
  exact getAttr_none_not_mem db x.key hx

/-- Key-preserving in-place updates keep keys distinct. -/
theorem uniqueAttrs_update (db : List Attr) (k : Nat × Nat × Nat × Nat)
    (f : Attr → Attr) (hf : ∀ a, (f a).key = a.key) (h : uniqueAttrs db) :
    uniqueAttrs (updateAttr db k f) := by
  unfold uniqueAttrs
  rw [updateAttr_map_key db k f hf]
  exact h

/-- The non-m2o branch of `save_attr` keeps keys distinct. -/
theorem save_attr_simple_unique (db : List Attr) (schemaCT : Nat) (s : Schema)
    (e : Entity) (value : Value) (h : uniqueAttrs db) :
    uniqueAttrs (save_attr_simple db schemaCT s e value) := by
  rcases hg : getAttr db (attrKeyFor schemaCT e s.pk) with _ | a
  · by_cases ht : value.truthy = true
    · have hres : save_attr_simple db schemaCT s e value
          = db ++ [attr_set_value (mkAttr (attrKeyFor schemaCT e s.pk)) s value] := by
        simp [save_attr_simple, hg, ht]
      rw [hres]
      apply uniqueAttrs_append db _ h
      rw [attr_set_value_key, mkAttr_key]
      exact hg
    · have hres : save_attr_simple db schemaCT s e value = db := by
        simp [save_attr_simple, hg, ht]
      rw [hres]
      exact h
  · by_cases he : value = attr_get_value a s
    · have hres : save_attr_simple db schemaCT s e value = db := by
        simp [save_attr_simple, hg, he]
      rw [hres]
      exact h
    · have hres : save_attr_simple db schemaCT s e value
          = updateAttr db (attrKeyFor schemaCT e s.pk)
              (fun x => attr_set_value x s value) := by
        simp [save_attr_simple, hg, he]
      rw [hres]
      exact uniqueAttrs_update _ _ _ (fun x => attr_set_value_key x s value) h

/-- One m2o choice step keeps keys distinct. -/
theorem saveChoiceAttr_unique (schemata : List Schema) (schemaCT : Nat)
    (e : Entity) (name : String) (enabled : List String) (db : List Attr)
    (choice : String) (h : uniqueAttrs db) :
    uniqueAttrs (saveChoiceAttr schemata schemaCT e name enabled db choice).1 := by
  rcases hf : findSchemaByName schemata (get_m2o_schema_name name choice) with _ | ms
  · simpa [saveChoiceAttr, hf] using h
  · rcases hg : getAttr db (attrKeyFor schemaCT e ms.pk) with _ | a0
    · have hres : (saveChoiceAttr schemata schemaCT e name enabled db choice).1
          = db ++ [attr_set_value (mkAttr (attrKeyFor schemaCT e ms.pk)) ms
              (Value.bool (enabled.contains (get_m2o_schema_name name choice)))] := by
        simp [saveChoiceAttr, hf, hg]
      rw [hres]
      apply uniqueAttrs_append db _ h
      rw [attr_set_value_key, mkAttr_key]
      exact hg
    · have hres : (saveChoiceAttr schemata schemaCT e name enabled db choice).1
          = updateAttr db (attrKeyFor schemaCT e ms.pk)
              (fun x => attr_set_value x ms
                (Value.bool (enabled.contains (get_m2o_schema_name name choice)))) := by
        simp [saveChoiceAttr, hf, hg]
      rw [hres]
      exact uniqueAttrs_update _ _ _ (fun x => attr_set_value_key x ms _) h

/-- The m2o choice loop keeps keys distinct. -/
theorem saveChoicesLoop_unique (schemata : List Schema) (schemaCT : Nat)
    (e : Entity) (name : String) (enabled : List String)
    (cs : List (String × String)) :
    ∀ db, uniqueAttrs db →
      uniqueAttrs (saveChoicesLoop schemata schemaCT e name enabled db cs).1 := by
  induction cs with
  | nil =>
      intro db h
      exact h
  | cons p rest ih =>
      intro db h
      obtain ⟨c, t⟩ := p
      unfold saveChoicesLoop
      cases hstep : saveChoiceAttr schemata schemaCT e name enabled db c with
      | mk db1 err =>
        have hdb1 : uniqueAttrs db1 := by
          have h2 := saveChoiceAttr_unique schemata schemaCT e name enabled db c h
          rw [hstep] at h2
          exact h2
        cases err with
        | none => exact ih db1 hdb1
        | some er => exact hdb1

/-- The m2o `None` reset keeps keys distinct. -/
theorem resetChoiceAttrs_unique (schemata : List Schema) (schemaCT : Nat)
    (valid : List String) (db : List Attr) (h : uniqueAttrs db) :
    uniqueAttrs (resetChoiceAttrs schemata schemaCT valid db) := by
  unfold uniqueAttrs resetChoiceAttrs
  rw [List.map_map]
  have hkeys : db.map (Attr.key ∘ fun a =>
      match attrSchemaName schemata schemaCT a with
      | some n => if valid.contains n then { a with value_bool := .bool false } else a
      | Option.none => a) = db.map Attr.key := by
    apply List.map_congr_left
    intro a _
    rcases hsn : attrSchemaName schemata schemaCT a with _ | n
    · simp [hsn]
    · by_cases hv : n ∈ valid
      · simp [hsn, hv, Attr.key]
      · simp [hsn, hv, Attr.key]
  rw [hkeys]
  exact h

/-- C2 helper: `save_attr` keeps keys distinct in every branch. -/
theorem save_attr_unique (schemata : List Schema) (schemaCT : Nat) (s : Schema)
    (e : Entity) (name : String) (value : Value) (db : List Attr)
    (h : uniqueAttrs db) :
    uniqueAttrs (save_attr schemata schemaCT s e name value db).1 := by
  by_cases hm : s.m2o = true
  · rcases value with ⟨_ | s0 | n0 | b0 | d0⟩ | items
    · have hres : (save_attr schemata schemaCT s e name (Value.scalar .none) db).1
          = resetChoiceAttrs schemata schemaCT
              (s.choices.map (fun c => get_m2o_schema_name name c.1)) db := by
        simp [save_attr, hm]
      rw [hres]
      exact resetChoiceAttrs_unique _ _ _ _ h
    · simpa [save_attr, hm] using h
    · simpa [save_attr, hm] using h
    · simpa [save_attr, hm] using h
    · simpa [save_attr, hm] using h
    · by_cases hall : (items.map (fun v => get_m2o_schema_name name v.pyStr)).all
          (fun n => (s.choices.map
            (fun c => get_m2o_schema_name name c.1)).contains n) = true
      · rw [save_attr_m2o_list_reduce schemata schemaCT s e name items db hm,
            if_pos hall]
        exact saveChoicesLoop_unique _ _ _ _ _ _ db h
      · rw [save_attr_m2o_list_reduce schemata schemaCT s e name items db hm,
            if_neg hall]
        exact h
  · have hm' : s.m2o = false := by
      revert hm
      cases s.m2o <;> simp
    have hres : (save_attr schemata schemaCT s e name value db).1
        = save_attr_simple db schemaCT s e value := by
      simp [save_attr, hm']
    rw [hres]
    exact save_attr_simple_unique db schemaCT s e value h

/-- The entity save loop keeps keys distinct. -/
theorem entitySaveLoop_unique (schemata : List Schema) (schemaCT : Nat)
    (e : Entity) (cs : List Schema) :
    ∀ db, uniqueAttrs db →
      uniqueAttrs (entitySaveLoop schemata schemaCT e db cs).1 := by
  induction cs with
  | nil =>
      intro db h
      exact h
  | cons s rest ih =>
      intro db h
      unfold entitySaveLoop
      by_cases hmg : s.managed = true
      · rw [if_pos hmg]
        exact ih db h
      · rw [if_neg hmg]
        cases hstep : save_attr schemata schemaCT s e s.name
            (getattrOrNone schemata schemaCT db e s.name) db with
        | mk db1 err =>
          have hdb1 : uniqueAttrs db1 := by
            have h2 := save_attr_unique schemata schemaCT s e s.name
              (getattrOrNone schemata schemaCT db e s.name) db h
            rw [hstep] at h2
            exact h2
          cases err with
          | none => exact ih db1 hdb1
          | some er => exact hdb1

/-- C2: every operation that stores attribute values — `save_attr` in all
its branches, `BaseEntity.save`, and `EntityManager.create` — preserves the
`unique_together` invariant: at most one `Attr` row per (entity, schema)
pair, hence per (entity, schema, choice) triple (this `Attr` model has no
choice column). -/
theorem attr_uniqueness_preserved (schemata : List Schema) (schemaCT : Nat)
    (s : Schema) (e : Entity) (name : String) (value : Value)
    (fields : List String) (entityCT newPk : Nat)
    (kwargs : List (String × Value)) (eav : Bool) (db : List Attr)
    (h : uniqueAttrs db) :
    uniqueAttrs (save_attr schemata schemaCT s e name value db).1 ∧
    uniqueAttrs (entitySave schemata schemaCT e eav db).1 ∧
    uniqueAttrs (managerCreate fields schemata schemaCT entityCT newPk
        kwargs db).db := by
  refine ⟨save_attr_unique schemata schemaCT s e name value db h,
    entitySaveLoop_unique schemata schemaCT e schemata db h, ?_⟩
  unfold managerCreate
  by_cases hall : kwargs.all
      (fun kv => (fields ++ schemata.map Schema.name).contains kv.1) = true
  · rw [if_pos hall]
    cases hsave : entitySave schemata schemaCT ⟨entityCT, newPk, kwargs⟩ true db with
    | mk db1 err =>
      have hdb1 : uniqueAttrs db1 := by
        have h2 := entitySaveLoop_unique schemata schemaCT
          ⟨entityCT, newPk, kwargs⟩ schemata db h
        rw [show entitySaveLoop schemata schemaCT
            (⟨entityCT, newPk, kwargs⟩ : Entity) db schemata
          = entitySave schemata schemaCT ⟨entityCT, newPk, kwargs⟩ true db
          from rfl, hsave] at h2
        exact h2
      cases err with
      | none => exact hdb1
      | some er => exact hdb1
  · rw [if_neg hall]
    exact h

/-- C2 witness: starting from a one-row table, the m2o save of
`size=['small']` leaves the key column duplicate-free. -/
theorem attr_uniqueness_preserved_witness :
    uniqueAttrs [greenAttr] ∧
    uniqueAttrs (save_attr exSchemata 2 sizeSchema exEntity "size"
        (.list [.str "small"]) [greenAttr]).1 :=
  ⟨by decide,
   (attr_uniqueness_preserved exSchemata 2 sizeSchema exEntity "size"
      (.list [.str "small"]) ["title"] 1 9 [] true [greenAttr] (by decide)).1⟩

end EavDjango
